import Mathlib

/-!
Shallow embedding of `src/lib.rs` of the can-blf-parser repository
(a WASM CAN-bus BLF-log decoder) together with theorems settling the
specification claims about it.

Modelling conventions:
* `u8` / `u16` / `u32` / `u64` machine integers are modelled as `Nat`,
  with an explicit `% 2 ^ w` wherever the Rust code can wrap.
* Rust release-profile semantics are used for arithmetic overflow
  (the shipped WASM artefact is a release build): a shift amount is
  masked modulo the bit width, and left shifts discard overflowing bits.
* `f64` quantities (timestamps, factors, offsets, decoded physical
  values) are modelled as exact rationals `Rat`; every claim under
  verification either fixes factor = 1 and offset = 0 or compares two
  computations that apply the identical arithmetic, so the rounding of
  individual `f64` operations never discriminates between the compared
  sides.
* `HashMap` values are modelled as association lists
  (`List (key × value)`), with `List.lookup` for `get`; the code never
  observes the iteration order of a map in a way a claim depends on.
* The external BLF container reader (crate `ablf`) and the DBC parser
  (crate `can_dbc`) are out of scope per the spec; the embedding takes
  the already-parsed object stream (`List ObjectTypes`) and the
  per-channel table (`Nat → Option DBC`) as inputs, and where a byte
  slice matters (`load_preview_smart`) the reader is an explicit
  function parameter.
-/

namespace CanBlf

/-- `can_dbc::ByteOrder`. -/
inductive ByteOrder where
  | littleEndian
  | bigEndian
deriving DecidableEq, Repr

/-- `can_dbc::ValueType`. -/
inductive ValueType where
  | unsignedValue
  | signedValue
deriving DecidableEq, Repr

/-- `can_dbc::Signal`: the fields of a DBC signal definition read by the
decoder (`start_bit`, `signal_size`, `byte_order`, `value_type`,
`factor`, `offset`, `name`, `unit`). -/
structure Signal where
  start_bit : Nat
  signal_size : Nat
  byte_order : ByteOrder
  value_type : ValueType
  factor : Rat
  offset : Rat
  name : String
  unit : String
deriving DecidableEq, Repr

/-- `can_dbc::Message`: numeric id (`message_id().raw()`), name and
signal list. -/
structure Message where
  message_id : Nat
  message_name : String
  signals : List Signal
deriving DecidableEq, Repr

/-- `can_dbc::DBC`: for this code base only the message table is read. -/
structure DBC where
  messages : List Message
deriving DecidableEq, Repr

/-- `ablf`'s CAN data-frame log object (`CanMessage86`): nanosecond
header timestamp, channel, arbitration id, data-length code and payload
bytes (each a `u8`, hence `< 256`). -/
structure CanMessage86 where
  timestamp_ns : Nat
  channel : Nat
  id : Nat
  dlc : Nat
  data : List Nat
deriving DecidableEq, Repr

/-- `ablf::ObjectTypes`: the log objects; every kind other than
`CanMessage86` is ignored uniformly by the code, so they collapse to a
single `other` constructor. -/
inductive ObjectTypes where
  | canMessage86 : CanMessage86 → ObjectTypes
  | other : ObjectTypes
deriving DecidableEq, Repr

/-- `SignalRow` (lib.rs SECTION 1). -/
structure SignalRow where
  signal : String
  value : Rat
  unit : String
deriving DecidableEq, Repr

/-- `FrameRow` (lib.rs SECTION 1). -/
structure FrameRow where
  timestamp : Rat
  channel : String
  id : Nat
  name : String
  event_type : String
  dir : String
  dlc : Nat
  data : List Nat
  signals : List SignalRow
deriving DecidableEq, Repr

/-! ## SECTION 3: `decode_signal_value` -/

/-- The `buf` array of `decode_signal_value`: the first 8 payload bytes,
zero-padded to length 8 (`buf[i] = data[i]` for `i < min 8 data.len()`). -/
def bufOf (data : List Nat) : List Nat :=
  (List.range 8).map (fun i => (data.get? i).getD 0)

/-- `raw |= (*b as u64) << (i * 8)` over `buf`: the first 8 payload
bytes assembled into a little-endian `u64`. -/
def rawOf (data : List Nat) : Nat :=
  (bufOf data).enum.foldl (fun raw p => raw ||| (p.2 <<< (p.1 * 8))) 0

/-- Two's-complement reinterpretation `x as i64` of a `u64` value. -/
def u64AsI64 (x : Nat) : Int :=
  if x < 2 ^ 63 then (x : Int) else (x : Int) - 2 ^ 64

/-- Arithmetic right shift `>>` of an `i64` by `s` bits: floor division
by `2 ^ s`. -/
def i64AShr (x : Int) (s : Nat) : Int :=
  Int.fdiv x (2 ^ s)

/-- `decode_signal_value` (lib.rs SECTION 3), with Rust release-profile
shift semantics. In `(1u64 << len) - 1` the shift amount is masked
modulo 64 in a release build (a debug build would panic when
`len = 64`), hence the `len % 64` below; in `(val_u64 << shift)` only
value bits overflow, which a `u64` discards (`% 2 ^ 64`). The Rust
function returns `Option<f64>`; values are modelled as exact rationals. -/
def decode_signal_value (sig : Signal) (data : List Nat) : Option Rat :=
  let start := sig.start_bit
  let len := sig.signal_size
  if len == 0 || len > 64 || start + len > 64 then none
  else
    let raw := rawOf data
    let val_u64 : Nat :=
      if sig.byte_order == ByteOrder.bigEndian then
        (List.range len).foldl
          (fun acc i => acc ||| (((raw >>> (start + i)) &&& 1) <<< i)) 0
      else
        (raw >>> start) &&& ((1 <<< (len % 64)) - 1)
    let signed_val : Int :=
      if sig.value_type == ValueType.signedValue then
        let shift := 64 - len
        i64AShr (u64AsI64 ((val_u64 <<< shift) % 2 ^ 64)) shift
      else
        u64AsI64 val_u64
    some ((signed_val : Rat) * sig.factor + sig.offset)

/-! ## SECTION 4: `frame_from_obj` -/

/-- The `FrameRow` that `frame_from_obj` builds for a `CanMessage86`
object. `dbc_map.get(&(cf.channel as u8))` truncates the `u16` channel
to `u8`, hence the `% 256`; the channel tag string uses the untruncated
channel. -/
def frameOfCm86 (cf : CanMessage86) (dbc_map : Nat → Option DBC) : FrameRow :=
  let ts : Rat := (cf.timestamp_ns : Rat) / (10 ^ 9 : Rat)
  let channel_str := "CAN" ++ toString cf.channel
  let nameAndRows : String × List SignalRow :=
    match dbc_map (cf.channel % 256) with
    | some dbc =>
      match dbc.messages.find? (fun m => m.message_id == cf.id) with
      | some msg =>
        (msg.message_name,
         msg.signals.filterMap (fun sig =>
           (decode_signal_value sig cf.data).map (fun val =>
             { signal := "CAN" ++ toString cf.channel ++ "." ++ sig.name
               value := val
               unit := sig.unit })))
      | none => ("", [])
    | none => ("", [])
  { timestamp := ts
    channel := channel_str
    id := cf.id
    name := nameAndRows.1
    event_type := "CAN Frame"
    dir := "Rx"
    dlc := cf.dlc
    data := cf.data
    signals := nameAndRows.2 }

/-- `frame_from_obj` (lib.rs SECTION 4) without the `seen_signals`
accumulator (which the caller threads separately, see `buildStep`). -/
def frame_from_obj (obj : ObjectTypes) (dbc_map : Nat → Option DBC) :
    Option FrameRow :=
  match obj with
  | ObjectTypes.canMessage86 cf => some (frameOfCm86 cf dbc_map)
  | ObjectTypes.other => none

/-- The `matches!(o.data, ObjectTypes::CanMessage86(_))` test used by
`decimated_stream`'s first pass. -/
def isCm86 (obj : ObjectTypes) : Bool :=
  match obj with
  | ObjectTypes.canMessage86 _ => true
  | ObjectTypes.other => false

/-! ## Association-list model of `HashMap` -/

/-- `HashMap::insert`: replace the value of an existing key, otherwise
add the binding. -/
def mapInsert {β : Type} (m : List (String × β)) (k : String) (v : β) :
    List (String × β) :=
  if (m.lookup k).isSome then
    m.map (fun p => if p.1 == k then (p.1, v) else p)
  else m ++ [(k, v)]

/-- The `if let Some(arr) = map.get_mut(k) { arr.push(x) }` pattern:
append `x` to the list stored at `k`, a no-op when `k` is absent. -/
def pushAt {α : Type} (m : List (String × List α)) (k : String) (x : α) :
    List (String × List α) :=
  m.map (fun p => if p.1 == k then (p.1, p.2 ++ [x]) else p)

/-- The `map.entry(k).or_default().push(x)` pattern: append `x` to the
list stored at `k`, creating the binding `k ↦ [x]` when absent. -/
def pushEntry {α : Type} (m : List (String × List α)) (k : String) (x : α) :
    List (String × List α) :=
  if (m.lookup k).isSome then
    m.map (fun p => if p.1 == k then (p.1, p.2 ++ [x]) else p)
  else m ++ [(k, [x])]

/-! ## SECTION 2: `BlfSession` -/

/-- The session state: decoded frame sequence plus the sorted
deduplicated registry of seen qualified signal names. -/
structure BlfSession where
  frames : List FrameRow
  signal_names : List String
deriving DecidableEq, Repr

/-- The per-frame `seen_signals` accumulation in `frame_from_obj`:
append each qualified signal name of the frame that is not already
recorded (`if !seen.contains(..) { seen.push(..) }`). -/
def updateSeen (seen : List String) (rows : List SignalRow) : List String :=
  rows.foldl (fun acc s => if acc.contains s.signal then acc else acc ++ [s.signal]) seen

/-- One constructor-loop iteration: decode the object and, when it is a
data frame, append the frame and record newly seen signal names. -/
def buildStep (dbc_map : Nat → Option DBC)
    (acc : List FrameRow × List String) (obj : ObjectTypes) :
    List FrameRow × List String :=
  match frame_from_obj obj dbc_map with
  | some f => (acc.1 ++ [f], updateSeen acc.2 f.signals)
  | none => acc

/-- Ascending insertion into a sorted list. -/
def insertAsc (a : String) : List String → List String
  | [] => [a]
  | b :: t => if a ≤ b then a :: b :: t else b :: insertAsc a t

/-- Ascending sort of the seen-signal list, modelling
`seen_signals.sort()`. A structurally recursive insertion sort is used
instead of `Vec::sort`'s merge sort: `String` is a total order and
string equality is identity, so every correct ascending sort of a list
produces the same result. -/
def sortAsc (l : List String) : List String :=
  l.foldr insertAsc []

/-- `BlfSession::new` after the external parsers: iterate the object
stream, build frames, accumulate seen signal names, sort the registry.
The byte-buffer and DBC-text parsing stages (external crates, out of
scope per the spec) are represented by taking the parsed object list
and channel table directly. -/
def buildSession (objs : List ObjectTypes) (dbc_map : Nat → Option DBC) :
    BlfSession :=
  let p := objs.foldl (buildStep dbc_map) ([], [])
  { frames := p.1, signal_names := sortAsc p.2 }

/-- `stats()` (lib.rs 2.2): `(frame_count, first_ts, last_ts,
signal_count)`, with `0.0` timestamps when there is no first/last
frame. -/
def BlfSession.stats (s : BlfSession) : Nat × Rat × Rat × Nat :=
  match s.frames.head?, s.frames.getLast? with
  | some f, some l => (s.frames.length, f.timestamp, l.timestamp, s.signal_names.length)
  | _, _ => (s.frames.length, 0, 0, s.signal_names.length)

/-- `preview(n)` (lib.rs 2.3): the first `min(n, frame_count)` frames. -/
def BlfSession.preview (s : BlfSession) (n : Nat) : List FrameRow :=
  s.frames.take (min n s.frames.length)

/-! ## SECTION 2.5: `decimated()` -/

/-- The decimated result: time axis plus the per-signal
value-or-missing arrays (`None` = JSON `null` = "missing"). -/
structure DecimatedOut where
  time : List Rat
  signals : List (String × List (Option Rat))
deriving DecidableEq, Repr

/-- `dec_signals` initialisation: every retained key bound to an empty
array. -/
def initLists (keys : List String) : List (String × List (Option Rat)) :=
  keys.foldl (fun m k => mapInsert m k []) []

/-- `last_seen` initialisation: every retained key bound to `None`. -/
def initLast (keys : List String) : List (String × Option Rat) :=
  keys.foldl (fun m k => mapInsert m k none) []

/-- One iteration of the `decimated` frame loop on state
`(dec_time, dec_signals, last_seen)` for the enumerated frame `p`:
first fold the frame's own signals into `last_seen`, then, if the frame
index is a stride multiple, push the timestamp and, per retained key,
the key's current `last_seen` value (`get(k).cloned().unwrap_or(None)`). -/
def decStep (keys : List String) (step : Nat)
    (st : List Rat × List (String × List (Option Rat)) × List (String × Option Rat))
    (p : Nat × FrameRow) :
    List Rat × List (String × List (Option Rat)) × List (String × Option Rat) :=
  let last1 := p.2.signals.foldl (fun ls s => mapInsert ls s.signal (some s.value)) st.2.2
  if p.1 % step == 0 then
    (st.1 ++ [p.2.timestamp],
     keys.foldl (fun m k => pushAt m k ((last1.lookup k).getD none)) st.2.1,
     last1)
  else
    (st.1, st.2.1, last1)

/-- `decimated(max_points, keep_signals)` (lib.rs 2.5). The `keep`
argument models the nullable JS array (`none` = retain every registry
name). On zero frames the code returns `{"time": [], "signals": {}}`
before touching `keep_signals`. Rust would panic on `max_points = 0`
(`total / max_points`); every claim assumes `max_points ≥ 1`, where
`Nat` division agrees with the Rust division. -/
def BlfSession.decimated (s : BlfSession) (max_points : Nat)
    (keep : Option (List String)) : DecimatedOut :=
  if s.frames.length == 0 then { time := [], signals := [] }
  else
    let keys := keep.getD s.signal_names
    let step := max 1 (s.frames.length / max_points)
    let fin := s.frames.enum.foldl (decStep keys step) ([], initLists keys, initLast keys)
    { time := fin.1, signals := fin.2.1 }

/-! ## SECTION 2.6: `export_csv()` -/

/-- One hex digit of `format!("{:X}", _)` / `format!("{:02X}", _)`:
uppercase. The catch-all branch is unreachable (always applied to
`n % 16`). -/
def hexDigitU : Nat → Char
  | 0 => '0' | 1 => '1' | 2 => '2' | 3 => '3'
  | 4 => '4' | 5 => '5' | 6 => '6' | 7 => '7'
  | 8 => '8' | 9 => '9' | 10 => 'A' | 11 => 'B'
  | 12 => 'C' | 13 => 'D' | 14 => 'E' | _ => 'F'

/-- Most-significant-first hex digits of `n` (empty for 0), with a fuel
argument for structural recursion; 32 digit positions cover every value
up to `2 ^ 128`, far beyond the `u32` ids the code formats. -/
def hexDigits : Nat → Nat → List Char
  | 0, _ => []
  | fuel + 1, n => if n == 0 then [] else hexDigits fuel (n / 16) ++ [hexDigitU (n % 16)]

/-- `format!("{:X}", n)`: uppercase hex, no forced width, `"0"` for 0. -/
def hexUpper (n : Nat) : String :=
  if n == 0 then "0" else String.mk (hexDigits 32 n)

/-- `format!("{:02X}", b)` for a payload byte (`u8`, so two digits). -/
def hexByte (b : Nat) : String :=
  String.mk [hexDigitU (b / 16 % 16), hexDigitU (b % 16)]

/-- The `Data` cell: payload bytes as space-separated two-digit
uppercase hex. -/
def dataHex (data : List Nat) : String :=
  String.intercalate " " (data.map hexByte)

/-- Rendering of the `Time [s]` cell. The source formats the `f64`
with `format!("{:.6}", _)`; no claim inspects the digits of this cell,
so the exact rational is printed instead of a fixed-6-decimal rounding
of the `f64`. -/
def fmtTime (t : Rat) : String :=
  toString t

/-- Rendering of a signal-value cell (`v.to_string()` on the `f64`).
No claim inspects the digits of a non-empty value cell; only empty
versus non-empty matters, so the exact rational is printed. -/
def fmtVal (v : Rat) : String :=
  toString v

/-- The value the per-frame `sig_map: HashMap<&str, f64>` yields for
`name`: collecting `(signal, value)` pairs into a `HashMap` keeps the
last pair for a repeated key, so this is the last matching row's value. -/
def lastSig (name : String) (rows : List SignalRow) : Option Rat :=
  rows.foldl (fun c r => if r.signal == name then some r.value else c) none

/-- The CSV header record: 8 fixed columns plus the selected signal
names in caller order. -/
def csvHeader (selected : Option (List String)) : List String :=
  ["Time [s]", "Channel", "ID", "Name", "Event Type", "Dir", "DLC", "Data"]
    ++ selected.getD []

/-- One CSV data record for a frame: the 8 fixed cells, then one cell
per selected name — the frame's value for that name, or an empty cell
(`sig_map.get(..).map_or(String::new(), ..)`) when the frame lacks it. -/
def csvRow (selected : Option (List String)) (f : FrameRow) : List String :=
  let base := [fmtTime f.timestamp, f.channel, "0x" ++ hexUpper f.id, f.name,
    f.event_type, f.dir, toString f.dlc, dataHex f.data]
  match selected with
  | some sel =>
    base ++ sel.map (fun sname =>
      match lastSig sname f.signals with
      | some v => fmtVal v
      | none => "")
  | none => base

/-- `export_csv(applied_signals)` (lib.rs 2.6) at the record level: the
sequence of records handed to the CSV writer (header first, then one
record per frame). The byte-level delimiting/quoting of the `csv` crate
is outside every claim, which speak of header/row column counts and
cell contents. -/
def export_csv (s : BlfSession) (selected : Option (List String)) :
    List (List String) :=
  csvHeader selected :: s.frames.map (csvRow selected)

/-! ## SECTION 2.8: `load_preview_smart()` -/

/-- `load_preview_smart` (lib.rs 2.8). `reader` stands for the external
BLF container parser applied to a byte slice (out of scope per the
spec, supplied as a black box). The source computes the 5% figure as
`(file_size as f64 * 0.05) as usize`; it is modelled by the exact
truncation `file_size / 20` (= ⌊0.05 · file_size⌋). For every
`file_size < 2 ^ 53` the two agree exactly, and above that both sides
exceed the 100 MiB cap that is applied next, so the computed slice
length is identical for every `u64` input. -/
def load_preview_smart (reader : List Nat → List ObjectTypes)
    (blf_bytes : List Nat) (dbc_map : Nat → Option DBC) (file_size : Nat) :
    List FrameRow :=
  let slice_len : Nat :=
    if file_size ≤ 20 * 1024 * 1024 then blf_bytes.length
    else min (file_size / 20) (100 * 1024 * 1024)
  let slice := blf_bytes.take (min slice_len blf_bytes.length)
  let session := buildSession (reader slice) dbc_map
  session.frames.take (min 50 session.frames.length)

/-! ## SECTION 2.10: `decimated_stream()` -/

/-- The streamed decimation result. Unlike `DecimatedOut`, the
per-signal arrays hold plain values (no missing marker). -/
structure StreamOut where
  time : List Rat
  signals : List (String × List Rat)
deriving DecidableEq, Repr

/-- One second-pass iteration of `decimated_stream` on state
`(times, signals_map, count)`: when the running frame count is a stride
multiple, push the timestamp and every signal value decoded in this
frame; then increment the count. The progress callback (a side-effect
only) is not modelled. -/
def streamStep (step : Nat)
    (st : List Rat × List (String × List Rat) × Nat) (frame : FrameRow) :
    List Rat × List (String × List Rat) × Nat :=
  if st.2.2 % step == 0 then
    (st.1 ++ [frame.timestamp],
     frame.signals.foldl (fun m s => pushEntry m s.signal s.value) st.2.1,
     st.2.2 + 1)
  else
    (st.1, st.2.1, st.2.2 + 1)

/-- `decimated_stream(max_points)` (lib.rs 2.10): first pass counts the
`CanMessage86` objects, second pass samples every `step`-th recognized
frame, `step = max(1, total_frames / max(max_points, 1))`. -/
def decimated_stream (objs : List ObjectTypes) (dbc_map : Nat → Option DBC)
    (max_points : Nat) : StreamOut :=
  let total_frames := (objs.filter isCm86).length
  let step := max 1 (total_frames / max max_points 1)
  let fin := objs.foldl (fun st obj =>
    match frame_from_obj obj dbc_map with
    | some frame => streamStep step st frame
    | none => st) ([], [], 0)
  { time := fin.1, signals := fin.2.1 }


/-! ## Specification-side helper functions used to state the theorems -/

/-- An association-list value as `decimated_stream`'s map reports it:
a key absent from the map (`none`) exactly when no value was ever
pushed for it. -/
def optList (l : List Rat) : Option (List Rat) :=
  if l = [] then none else some l

/-- The values a frame's signal-row list carries for `name`, in row
order. -/
def rowVals (name : String) (rows : List SignalRow) : List Rat :=
  (rows.filter (fun r => r.signal == name)).map (fun r => r.value)

/-- The values observed for `name` across a frame sequence, in order. -/
def streamVals (name : String) (frames : List FrameRow) : List Rat :=
  (frames.map (fun f => rowVals name f.signals)).flatten

/-- The frames of `frames` whose zero-based index is a multiple of
`step`, in order. -/
def sampledFrames (frames : List FrameRow) (step : Nat) : List FrameRow :=
  (frames.enum.filter (fun p => p.1 % step == 0)).map (fun p => p.2)

/-- The sixteen uppercase hex digit characters. -/
def hexChars : List Char :=
  ['0', '1', '2', '3', '4', '5', '6', '7', '8', '9', 'A', 'B', 'C', 'D', 'E', 'F']

/-- `c` is an uppercase hexadecimal digit. -/
def isHexUpper (c : Char) : Bool :=
  hexChars.contains c

/-- The validity condition of `decode_signal_value`'s guard, as the
spec states it: the signal's bit span lies inside the 64-bit window.
`decode_signal_value` returns a value exactly when this holds. -/
def spanOk (sig : Signal) : Bool :=
  !(sig.signal_size == 0 || sig.signal_size > 64
    || sig.start_bit + sig.signal_size > 64)

/-! ## Concrete fixtures used by the witnesses and counterexamples -/

/-- Big-endian unsigned full-byte signal of the spec's testable
property: `start_bit = 7`, `bit_length = 8`, factor 1, offset 0. -/
def sigBE78 : Signal :=
  ⟨7, 8, ByteOrder.bigEndian, ValueType.unsignedValue, 1, 0, "S", ""⟩

/-- Little-endian unsigned signal covering the whole 64-bit window:
`start_bit = 0`, `bit_length = 64`, factor 1, offset 0. -/
def sigLE64 : Signal :=
  ⟨0, 64, ByteOrder.littleEndian, ValueType.unsignedValue, 1, 0, "S", ""⟩

/-- Eight payload bytes assembling to the raw integer 1. -/
def d64 : List Nat := [1, 0, 0, 0, 0, 0, 0, 0]

/-- An in-window little-endian byte signal named `X`. -/
def sigX : Signal :=
  ⟨0, 8, ByteOrder.littleEndian, ValueType.unsignedValue, 1, 0, "X", ""⟩

/-- A one-message table: id 1 carries the single signal `X`. -/
def dbcX : DBC := ⟨[⟨1, "M", [sigX]⟩]⟩

/-- Channel table binding channel 1 to `dbcX`. -/
def dbcMapX : Nat → Option DBC := fun c => if c = 1 then some dbcX else none

/-- A data frame on channel 1 matching message id 1, payload `[5]`. -/
def cmA : CanMessage86 := ⟨0, 1, 1, 1, [5]⟩

/-- A data frame on channel 1 with id 2, matching no message. -/
def cmB : CanMessage86 := ⟨1000000000, 1, 2, 0, []⟩

/-- A two-frame object stream: one frame observing `CAN1.X`, then one
frame observing nothing. -/
def objsAB : List ObjectTypes :=
  [ObjectTypes.canMessage86 cmA, ObjectTypes.canMessage86 cmB]

/-- An in-window signal `A` for the frame-builder witness. -/
def sigIn : Signal :=
  ⟨0, 8, ByteOrder.littleEndian, ValueType.unsignedValue, 1, 0, "A", ""⟩

/-- An out-of-window signal `B` (60 + 8 > 64). -/
def sigOut : Signal :=
  ⟨60, 8, ByteOrder.littleEndian, ValueType.unsignedValue, 1, 0, "B", ""⟩

/-- A message carrying one decodable and one undecodable signal. -/
def msgW : Message := ⟨1, "M", [sigIn, sigOut]⟩

/-- Channel table binding channel 1 to the message `msgW`. -/
def dbcMapW : Nat → Option DBC :=
  fun c => if c = 1 then some (DBC.mk [msgW]) else none

/-- A data frame on channel 1 matching `msgW`, payload `[7]`. -/
def cmW : CanMessage86 := ⟨0, 1, 1, 1, [7]⟩

/-- Hand-built frames for the decimator witnesses: the signal `A` is
observed only in the middle frame (index 1) with value 7. -/
def fr0 : FrameRow := ⟨0, "CAN1", 1, "", "CAN Frame", "Rx", 0, [], []⟩

/-- See `fr0`. -/
def fr1 : FrameRow := ⟨1, "CAN1", 1, "", "CAN Frame", "Rx", 0, [], [⟨"A", 7, ""⟩]⟩

/-- See `fr0`. -/
def fr2 : FrameRow := ⟨2, "CAN1", 1, "", "CAN Frame", "Rx", 0, [], []⟩

/-- A three-frame session whose registry holds the single name `A`. -/
def sess3 : BlfSession := ⟨[fr0, fr1, fr2], ["A"]⟩

/-- A one-frame session for the CSV witness (id 26 prints as `0x1A`). -/
def sessW : BlfSession :=
  ⟨[⟨0, "CAN1", 26, "M", "CAN Frame", "Rx", 1, [7], [⟨"CAN1.A", 5, ""⟩]⟩],
    ["CAN1.A"]⟩

/-! ## Lookup lemmas for the association-list map model -/

theorem lookup_cons_pair {β : Type} (k pk : String) (pv : β)
    (t : List (String × β)) :
    List.lookup k ((pk, pv) :: t) = if k == pk then some pv else List.lookup k t := by
  rw [List.lookup_cons]
  cases k == pk <;> rfl

theorem lookup_append_of_none {β : Type} {m l : List (String × β)} {k : String}
    (h : m.lookup k = none) : (m ++ l).lookup k = l.lookup k := by
  induction m with
  | nil => rfl
  | cons p t ih =>
    obtain ⟨pk, pv⟩ := p
    rw [List.cons_append, lookup_cons_pair]
    rw [lookup_cons_pair] at h
    by_cases hk : k = pk
    · rw [if_pos (by simp [hk])] at h
      cases h
    · rw [if_neg (by simp [beq_false_of_ne hk])] at h ⊢
      exact ih h

theorem lookup_append_single_ne {β : Type} {k k' : String} (v : β)
    (h : k' ≠ k) : ∀ m : List (String × β),
    (m ++ [(k, v)]).lookup k' = m.lookup k' := by
  intro m
  induction m with
  | nil =>
    simp only [List.nil_append, lookup_cons_pair, beq_false_of_ne h,
      Bool.false_eq_true, if_false]
  | cons p t ih =>
    obtain ⟨pk, pv⟩ := p
    rw [List.cons_append, lookup_cons_pair, lookup_cons_pair]
    cases k' == pk with
    | true => rfl
    | false => simp only [Bool.false_eq_true, if_false]; exact ih

theorem lookup_valueMap {β : Type} (g : β → β) (k : String) :
    ∀ m : List (String × β),
      (m.map (fun p => if p.1 == k then (p.1, g p.2) else p)).lookup k
        = (m.lookup k).map g := by
  intro m
  induction m with
  | nil => rfl
  | cons p t ih =>
    obtain ⟨pk, pv⟩ := p
    by_cases hpk : pk = k
    · subst hpk
      simp only [List.map_cons, BEq.refl, if_true, lookup_cons_pair]
      simp [ih]
    · simp only [List.map_cons, beq_false_of_ne hpk, Bool.false_eq_true, if_false,
        lookup_cons_pair]
      by_cases hk : k = pk
      · exact absurd hk.symm hpk
      · simp only [beq_false_of_ne hk, Bool.false_eq_true, if_false]
        exact ih

theorem lookup_valueMap_ne {β : Type} (g : β → β) {k k' : String} (h : k' ≠ k) :
    ∀ m : List (String × β),
      (m.map (fun p => if p.1 == k then (p.1, g p.2) else p)).lookup k'
        = m.lookup k' := by
  intro m
  induction m with
  | nil => rfl
  | cons p t ih =>
    obtain ⟨pk, pv⟩ := p
    by_cases hpk : pk = k
    · subst hpk
      simp only [List.map_cons, BEq.refl, if_true, lookup_cons_pair,
        beq_false_of_ne h, Bool.false_eq_true, if_false]
      exact ih
    · simp only [List.map_cons, beq_false_of_ne hpk, Bool.false_eq_true, if_false,
        lookup_cons_pair]
      cases k' == pk with
      | true => rfl
      | false => simp only [Bool.false_eq_true, if_false]; exact ih

theorem lookup_mapInsert_self {β : Type} (m : List (String × β)) (k : String)
    (v : β) : (mapInsert m k v).lookup k = some v := by
  unfold mapInsert
  by_cases hs : (m.lookup k).isSome = true
  · rw [if_pos hs, lookup_valueMap (fun _ => v) k m]
    obtain ⟨w, hw⟩ := Option.isSome_iff_exists.mp hs
    rw [hw]
    rfl
  · have hnone : m.lookup k = none := Option.not_isSome_iff_eq_none.mp hs
    rw [if_neg hs, lookup_append_of_none hnone, lookup_cons_pair,
      if_pos (by simp)]

theorem lookup_mapInsert_ne {β : Type} (m : List (String × β)) {k k' : String}
    (v : β) (h : k' ≠ k) : (mapInsert m k v).lookup k' = m.lookup k' := by
  unfold mapInsert
  split
  · exact lookup_valueMap_ne (fun _ => v) h m
  · exact lookup_append_single_ne v h m

theorem lookup_pushAt_self {α : Type} (m : List (String × List α)) (k : String)
    (x : α) : (pushAt m k x).lookup k = (m.lookup k).map (· ++ [x]) :=
  lookup_valueMap (· ++ [x]) k m

theorem lookup_pushAt_ne {α : Type} (m : List (String × List α)) {k k' : String}
    (x : α) (h : k' ≠ k) : (pushAt m k x).lookup k' = m.lookup k' :=
  lookup_valueMap_ne (· ++ [x]) h m

theorem lookup_pushEntry_self {α : Type} (m : List (String × List α))
    (k : String) (x : α) :
    (pushEntry m k x).lookup k = some (((m.lookup k).getD []) ++ [x]) := by
  unfold pushEntry
  by_cases hs : (m.lookup k).isSome = true
  · rw [if_pos hs, lookup_valueMap (· ++ [x]) k m]
    obtain ⟨w, hw⟩ := Option.isSome_iff_exists.mp hs
    rw [hw]
    rfl
  · have hnone : m.lookup k = none := Option.not_isSome_iff_eq_none.mp hs
    rw [if_neg hs, lookup_append_of_none hnone, lookup_cons_pair,
      if_pos (by simp), hnone]
    rfl

theorem lookup_pushEntry_ne {α : Type} (m : List (String × List α))
    {k k' : String} (x : α) (h : k' ≠ k) :
    (pushEntry m k x).lookup k' = m.lookup k' := by
  unfold pushEntry
  split
  · exact lookup_valueMap_ne (· ++ [x]) h m
  · exact lookup_append_single_ne [x] h m

/-! ## The effect of one frame on the most-recent-value state -/

/-- The net effect of a frame's signal rows on a most-recent-value
cell for `name`, starting from `c`: the value of the last row named
`name`, or `c` when the frame has none. -/
def applyRows (name : String) (c : Option Rat) (rows : List SignalRow) :
    Option Rat :=
  rows.foldl (fun c r => if r.signal == name then some r.value else c) c

theorem lastSig_eq_applyRows (name : String) (rows : List SignalRow) :
    lastSig name rows = applyRows name none rows := rfl

theorem applyRows_cons (name : String) (c : Option Rat) (r : SignalRow)
    (rows : List SignalRow) :
    applyRows name c (r :: rows)
      = applyRows name (if r.signal == name then some r.value else c) rows := rfl

theorem applyRows_of_no_match {name : String} {rows : List SignalRow}
    (h : ∀ r ∈ rows, r.signal ≠ name) (c : Option Rat) :
    applyRows name c rows = c := by
  induction rows generalizing c with
  | nil => rfl
  | cons r rows ih =>
    rw [applyRows_cons, if_neg (by simp [beq_false_of_ne (h r (by simp))])]
    exact ih (fun r' hr' => h r' (by simp [hr'])) c

theorem applyRows_of_some {name : String} {rows : List SignalRow} {v : Rat}
    (h : applyRows name none rows = some v) (c : Option Rat) :
    applyRows name c rows = some v := by
  induction rows generalizing c with
  | nil => cases h
  | cons r rows ih =>
    rw [applyRows_cons] at h ⊢
    by_cases hr : r.signal = name
    · rw [if_pos (by simp [hr])] at h ⊢
      exact h
    · rw [if_neg (by simp [beq_false_of_ne hr])] at h ⊢
      exact ih h c

theorem lookup_lastSeenFold (name : String) :
    ∀ (rows : List SignalRow) (ls : List (String × Option Rat)),
      (((rows.foldl (fun ls s => mapInsert ls s.signal (some s.value)) ls)).lookup
          name).getD none
        = applyRows name ((ls.lookup name).getD none) rows := by
  intro rows
  induction rows with
  | nil => intro ls; rfl
  | cons r rows ih =>
    intro ls
    rw [List.foldl_cons, ih, applyRows_cons]
    by_cases hr : r.signal = name
    · rw [if_pos (by simp [hr]), hr, lookup_mapInsert_self]
      rfl
    · rw [if_neg (by simp [beq_false_of_ne hr]),
        lookup_mapInsert_ne ls (some r.value) (fun hn => hr hn.symm)]

theorem lookup_keysPushFold {α : Type} (name : String) (f : String → α) :
    ∀ (keys : List String) (m : List (String × List α)),
      (keys.foldl (fun m k => pushAt m k (f k)) m).lookup name
        = (m.lookup name).map (· ++ List.replicate (keys.count name) (f name)) := by
  intro keys
  induction keys with
  | nil =>
    intro m
    cases hm : m.lookup name <;> simp [hm, List.count_nil]
  | cons k ks ih =>
    intro m
    rw [List.foldl_cons, ih, List.count_cons]
    by_cases hk : k = name
    · subst hk
      rw [if_pos (by simp), lookup_pushAt_self]
      cases m.lookup k <;>
        simp [List.replicate_succ, List.append_assoc]
    · rw [if_neg (by simp [beq_false_of_ne hk]),
        lookup_pushAt_ne m (f k) (fun hn => hk hn.symm)]
      simp

theorem lookup_initFold {β : Type} (v : β) (name : String) :
    ∀ (keys : List String) (m : List (String × β)),
      (keys.foldl (fun m k => mapInsert m k v) m).lookup name
        = if name ∈ keys then some v else m.lookup name := by
  intro keys
  induction keys with
  | nil => intro m; simp
  | cons k ks ih =>
    intro m
    rw [List.foldl_cons, ih]
    by_cases h1 : name ∈ ks
    · simp [h1]
    · by_cases hk : name = k
      · subst hk
        rw [if_neg h1, lookup_mapInsert_self]
        simp
      · rw [if_neg h1, lookup_mapInsert_ne m v hk]
        simp [h1, hk]

theorem lookup_initLists (keys : List String) (name : String) :
    (initLists keys).lookup name = if name ∈ keys then some [] else none := by
  unfold initLists
  rw [lookup_initFold]
  rfl

theorem lookup_initLast (keys : List String) (name : String) :
    (initLast keys).lookup name = if name ∈ keys then some none else none := by
  unfold initLast
  rw [lookup_initFold]
  rfl

/-! ## Characterising the `decimated` frame loop -/

/-- Reference recursion for the samples the `decimated` loop emits for
one signal `name`: walk the enumerated frames with current
most-recent value `cur`, first fold in the frame's own rows, then emit
the updated value when the frame index is a stride multiple. -/
def locfOut (name : String) (step : Nat) :
    List (Nat × FrameRow) → Option Rat → List (Option Rat)
  | [], _ => []
  | p :: rest, cur =>
    let cur1 := applyRows name cur p.2.signals
    if p.1 % step == 0 then cur1 :: locfOut name step rest cur1
    else locfOut name step rest cur1

theorem locfOut_cons (name : String) (step : Nat) (p : Nat × FrameRow)
    (rest : List (Nat × FrameRow)) (cur : Option Rat) :
    locfOut name step (p :: rest) cur
      = if p.1 % step == 0
        then applyRows name cur p.2.signals
          :: locfOut name step rest (applyRows name cur p.2.signals)
        else locfOut name step rest (applyRows name cur p.2.signals) := rfl

theorem dec_fold_time (keys : List String) (step : Nat) :
    ∀ (l : List (Nat × FrameRow)) (t0 : List Rat)
      (d0 : List (String × List (Option Rat))) (ls0 : List (String × Option Rat)),
      (l.foldl (decStep keys step) (t0, d0, ls0)).1
        = t0 ++ (l.filter (fun p => p.1 % step == 0)).map (fun p => p.2.timestamp) := by
  intro l
  induction l with
  | nil => intro t0 d0 ls0; simp
  | cons p rest ih =>
    intro t0 d0 ls0
    rw [List.foldl_cons, List.filter_cons]
    by_cases hp : (p.1 % step == 0) = true
    · simp only [decStep, if_pos hp]
      rw [ih]
      simp
    · simp only [decStep, if_neg hp]
      rw [ih]

theorem dec_fold_lookup (name : String) (keys : List String) (step : Nat)
    (hc : keys.count name = 1) :
    ∀ (l : List (Nat × FrameRow)) (t0 : List Rat)
      (d0 : List (String × List (Option Rat)))
      (ls0 : List (String × Option Rat)) (arr0 : List (Option Rat)),
      d0.lookup name = some arr0 →
      ((l.foldl (decStep keys step) (t0, d0, ls0)).2.1).lookup name
        = some (arr0 ++ locfOut name step l ((ls0.lookup name).getD none)) := by
  intro l
  induction l with
  | nil =>
    intro t0 d0 ls0 arr0 h0
    simpa [locfOut] using h0
  | cons p rest ih =>
    intro t0 d0 ls0 arr0 h0
    rw [List.foldl_cons, locfOut_cons]
    have hcur : ((p.2.signals.foldl
          (fun ls s => mapInsert ls s.signal (some s.value)) ls0).lookup name).getD none
        = applyRows name ((ls0.lookup name).getD none) p.2.signals :=
      lookup_lastSeenFold name p.2.signals ls0
    by_cases hp : (p.1 % step == 0) = true
    · simp only [decStep, if_pos hp]
      have hd1 : ((keys.foldl
            (fun m k => pushAt m k
              (((p.2.signals.foldl (fun ls s => mapInsert ls s.signal (some s.value))
                  ls0).lookup k).getD none)) d0).lookup name)
          = some (arr0 ++ [applyRows name ((ls0.lookup name).getD none) p.2.signals]) := by
        rw [lookup_keysPushFold name _ keys d0, h0, hc, hcur]
        simp
      rw [ih _ _ _ _ hd1, hcur]
      simp [List.append_assoc]
    · simp only [decStep, if_neg hp]
      rw [ih _ _ _ _ h0, hcur]

theorem locfOut_length (name : String) (step : Nat) :
    ∀ (l : List (Nat × FrameRow)) (cur : Option Rat),
      (locfOut name step l cur).length
        = ((l.filter (fun p => p.1 % step == 0))).length := by
  intro l
  induction l with
  | nil => intro cur; rfl
  | cons p rest ih =>
    intro cur
    rw [locfOut_cons, List.filter_cons]
    by_cases hp : (p.1 % step == 0) = true
    · rw [if_pos hp, if_pos hp, List.length_cons, List.length_cons, ih]
    · rw [if_neg hp, if_neg hp, ih]

theorem locfOut_all_none (name : String) (step : Nat) :
    ∀ (l : List (Nat × FrameRow)),
      (∀ p ∈ l, ∀ r ∈ p.2.signals, r.signal ≠ name) →
      locfOut name step l none
        = List.replicate ((l.filter (fun p => p.1 % step == 0))).length none := by
  intro l
  induction l with
  | nil => intro _; rfl
  | cons p rest ih =>
    intro h
    rw [locfOut_cons, List.filter_cons,
      applyRows_of_no_match (h p (by simp)) none]
    have hrest := ih (fun p' hp' => h p' (by simp [hp']))
    by_cases hp : (p.1 % step == 0) = true
    · rw [if_pos hp, if_pos hp, hrest, List.length_cons, List.replicate_succ]
    · rw [if_neg hp, if_neg hp, hrest]

theorem locfOut_enumFrom_single (name : String) (step k : Nat) (v : Rat) :
    ∀ (fr : List FrameRow) (a : Nat) (cur : Option Rat),
      cur = (if k < a then some v else none) →
      (∀ j (hj : j < fr.length), a + j ≠ k →
        ∀ r ∈ (fr.get ⟨j, hj⟩).signals, r.signal ≠ name) →
      (∀ j (hj : j < fr.length), a + j = k →
        applyRows name none (fr.get ⟨j, hj⟩).signals = some v) →
      locfOut name step (List.enumFrom a fr) cur
        = ((List.range' a fr.length).filter (fun i => i % step == 0)).map
            (fun i => if i < k then none else some v) := by
  intro fr
  induction fr with
  | nil => intro a cur _ _ _; rfl
  | cons f rest ih =>
    intro a cur hcur hno hk
    rw [List.enumFrom_cons, locfOut_cons]
    have hcur1 : applyRows name cur f.signals
        = (if k < a + 1 then some v else none) := by
      by_cases hak : a = k
      · rw [if_pos (by omega)]
        have hobs : applyRows name none f.signals = some v := by
          simpa using hk 0 (by simp) (by simpa using hak)
        exact applyRows_of_some hobs cur
      · have hno0 : ∀ r ∈ f.signals, r.signal ≠ name := by
          simpa using hno 0 (by simp) (by simpa using hak)
        rw [applyRows_of_no_match hno0 cur, hcur]
        by_cases hka : k < a
        · rw [if_pos hka, if_pos (by omega)]
        · rw [if_neg hka, if_neg (by omega)]
    have hrange : List.range' a (f :: rest).length
        = a :: List.range' (a + 1) rest.length := by
      rw [List.length_cons, List.range'_succ]
    have hno' : ∀ j (hj : j < rest.length), (a + 1) + j ≠ k →
        ∀ r ∈ (rest.get ⟨j, hj⟩).signals, r.signal ≠ name := by
      intro j hj hne
      have := hno (j + 1) (by simpa using Nat.succ_lt_succ hj) (by omega)
      simpa using this
    have hk' : ∀ j (hj : j < rest.length), (a + 1) + j = k →
        applyRows name none (rest.get ⟨j, hj⟩).signals = some v := by
      intro j hj he
      have := hk (j + 1) (by simpa using Nat.succ_lt_succ hj) (by omega)
      simpa using this
    have ihr := ih (a + 1) (applyRows name cur f.signals) hcur1 hno' hk'
    rw [hrange, List.filter_cons]
    by_cases hp : (a % step == 0) = true
    · rw [if_pos hp, if_pos hp, List.map_cons]
      rw [ihr]
      congr 1
      rw [hcur1]
      by_cases hak : a < k
      · rw [if_neg (by omega), if_pos hak]
      · rw [if_pos (by omega), if_neg hak]
    · rw [if_neg hp, if_neg hp, ihr]

theorem enumFrom_filter_length (step : Nat) :
    ∀ (fr : List FrameRow) (a : Nat),
      ((List.enumFrom a fr).filter (fun p => p.1 % step == 0)).length
        = ((List.range' a fr.length).filter (fun i => i % step == 0)).length := by
  intro fr
  induction fr with
  | nil => intro a; rfl
  | cons f rest ih =>
    intro a
    rw [List.enumFrom_cons, List.filter_cons, List.length_cons, List.range'_succ,
      List.filter_cons]
    by_cases hp : (a % step == 0) = true
    · rw [if_pos hp, if_pos hp, List.length_cons, List.length_cons, ih]
    · rw [if_neg hp, if_neg hp, ih]

/-! ## Counting the sampled indices -/

theorem ceil_div_succ (step N : Nat) (hs : 0 < step) :
    (N + step) / step = (N + step - 1) / step + (if N % step = 0 then 1 else 0) := by
  obtain ⟨q, r, hrlt, rfl⟩ : ∃ q r, r < step ∧ N = step * q + r :=
    ⟨N / step, N % step, Nat.mod_lt _ hs, (Nat.div_add_mod N step).symm⟩
  have hmod : (step * q + r) % step = r := by
    rw [Nat.mul_add_mod, Nat.mod_eq_of_lt hrlt]
  rw [hmod]
  by_cases hr : r = 0
  · subst hr
    rw [if_pos rfl]
    have h2 : step * q + 0 + step - 1 = step * q + (step - 1) := by omega
    rw [h2, Nat.mul_add_div hs, Nat.div_eq_of_lt (show step - 1 < step by omega)]
    have h1 : step * q + 0 + step = step * (q + 1) := by ring
    rw [h1, Nat.mul_div_cancel_left _ hs]
  · rw [if_neg hr]
    have e1 : (step * q + r + step) / step = q + 1 := by
      have h1 : step * q + r + step = step * (q + 1) + r := by ring
      rw [h1, Nat.mul_add_div hs, Nat.div_eq_of_lt hrlt]
    have e2 : (step * q + r + step - 1) / step = q + 1 := by
      have h3 : step * q + r + step - 1 = step * (q + 1) + (r - 1) := by
        rw [Nat.mul_succ]
        omega
      rw [h3, Nat.mul_add_div hs,
        Nat.div_eq_of_lt (show r - 1 < step by omega)]
    rw [e1, e2]

theorem length_filter_mod (step : Nat) (hs : 0 < step) :
    ∀ N : Nat, ((List.range N).filter (fun i => i % step == 0)).length
      = (N + step - 1) / step := by
  intro N
  induction N with
  | zero =>
    rw [List.range_zero]
    rw [Nat.div_eq_of_lt (by omega)]
    rfl
  | succ N ih =>
    rw [List.range_succ, List.filter_append, List.length_append, ih]
    have hN1 : N + 1 + step - 1 = N + step := by omega
    rw [hN1, ceil_div_succ step N hs]
    congr 1
    by_cases hN : N % step = 0
    · rw [if_pos hN]
      have : (N % step == 0) = true := by simp [hN]
      rw [List.filter_cons, if_pos this]
      rfl
    · rw [if_neg hN]
      have : (N % step == 0) = false := by simp [hN]
      rw [List.filter_cons, this]
      rfl

/-! ## Session construction -/

theorem build_fold_frames (dbc_map : Nat → Option DBC) :
    ∀ (objs : List ObjectTypes) (acc : List FrameRow × List String),
      (objs.foldl (buildStep dbc_map) acc).1
        = acc.1 ++ objs.filterMap (fun o => frame_from_obj o dbc_map) := by
  intro objs
  induction objs with
  | nil => intro acc; simp
  | cons o rest ih =>
    intro acc
    rw [List.foldl_cons, List.filterMap_cons]
    cases ho : frame_from_obj o dbc_map with
    | some f =>
      simp only [buildStep, ho]
      rw [ih]
      simp
    | none =>
      simp only [buildStep, ho]
      rw [ih]

theorem buildSession_frames (objs : List ObjectTypes)
    (dbc_map : Nat → Option DBC) :
    (buildSession objs dbc_map).frames
      = objs.filterMap (fun o => frame_from_obj o dbc_map) := by
  simp only [buildSession]
  rw [build_fold_frames dbc_map objs ([], [])]
  rfl

theorem build_fold_seen_of_none (dbc_map : Nat → Option DBC) :
    ∀ (objs : List ObjectTypes) (acc : List FrameRow × List String),
      (∀ o ∈ objs, frame_from_obj o dbc_map = none) →
      (objs.foldl (buildStep dbc_map) acc).2 = acc.2 := by
  intro objs
  induction objs with
  | nil => intro acc _; rfl
  | cons o rest ih =>
    intro acc h
    rw [List.foldl_cons]
    have ho : frame_from_obj o dbc_map = none := h o (by simp)
    simp only [buildStep, ho]
    exact ih acc (fun o' ho' => h o' (by simp [ho']))

theorem buildSession_names_nil {objs : List ObjectTypes}
    {dbc_map : Nat → Option DBC}
    (h : (buildSession objs dbc_map).frames = []) :
    (buildSession objs dbc_map).signal_names = [] := by
  have hfm : objs.filterMap (fun o => frame_from_obj o dbc_map) = [] := by
    rw [← buildSession_frames]
    exact h
  have hall : ∀ o ∈ objs, frame_from_obj o dbc_map = none :=
    List.filterMap_eq_nil_iff.mp hfm
  simp only [buildSession]
  rw [build_fold_seen_of_none dbc_map objs ([], []) hall]
  rfl

/-! ## Top-level shape of `decimated` -/

theorem decimated_ne_zero (s : BlfSession) (M : Nat)
    (keep : Option (List String)) (hN : s.frames.length ≠ 0) :
    s.decimated M keep
      = { time := (s.frames.enum.foldl
            (decStep (keep.getD s.signal_names) (max 1 (s.frames.length / M)))
            ([], initLists (keep.getD s.signal_names),
              initLast (keep.getD s.signal_names))).1,
          signals := (s.frames.enum.foldl
            (decStep (keep.getD s.signal_names) (max 1 (s.frames.length / M)))
            ([], initLists (keep.getD s.signal_names),
              initLast (keep.getD s.signal_names))).2.1 } := by
  unfold BlfSession.decimated
  rw [if_neg (by simp [hN])]

theorem decimated_time_char (s : BlfSession) (M : Nat)
    (keep : Option (List String)) (hN : s.frames.length ≠ 0) :
    (s.decimated M keep).time
      = (s.frames.enum.filter
          (fun p => p.1 % (max 1 (s.frames.length / M)) == 0)).map
            (fun p => p.2.timestamp) := by
  rw [decimated_ne_zero s M keep hN]
  rw [show ∀ (x : List Rat) (y : List (String × List (Option Rat))),
      (DecimatedOut.mk x y).time = x from fun _ _ => rfl]
  rw [dec_fold_time]
  rfl

theorem decimated_time_len (s : BlfSession) (M : Nat)
    (keep : Option (List String)) (hN : s.frames.length ≠ 0) :
    (s.decimated M keep).time.length
      = (s.frames.length + (max 1 (s.frames.length / M)) - 1)
          / (max 1 (s.frames.length / M)) := by
  rw [decimated_time_char s M keep hN, List.length_map]
  rw [show List.enum s.frames = List.enumFrom 0 s.frames from rfl]
  rw [enumFrom_filter_length (max 1 (s.frames.length / M)) s.frames 0]
  rw [show List.range' 0 s.frames.length = List.range s.frames.length from
    (List.range_eq_range' _).symm]
  exact length_filter_mod _ (by omega) s.frames.length

theorem decimated_lookup_char (s : BlfSession) (M : Nat) (keys : List String)
    (name : String) (hc : keys.count name = 1) (hN : s.frames.length ≠ 0) :
    ((s.decimated M (some keys)).signals).lookup name
      = some (locfOut name (max 1 (s.frames.length / M)) s.frames.enum none) := by
  have h0 : (initLists keys).lookup name = some ([] : List (Option Rat)) := by
    have hmem : name ∈ keys := List.count_pos_iff.mp (by omega)
    rw [lookup_initLists, if_pos hmem]
  have hls : ((initLast keys).lookup name).getD none = none := by
    rw [lookup_initLast]
    split <;> rfl
  rw [decimated_ne_zero s M (some keys) hN]
  rw [show ∀ (x : List Rat) (y : List (String × List (Option Rat))),
      (DecimatedOut.mk x y).signals = y from fun _ _ => rfl]
  rw [show (some keys).getD s.signal_names = keys from rfl]
  rw [dec_fold_lookup name keys (max 1 (s.frames.length / M)) hc s.frames.enum
    [] (initLists keys) (initLast keys) [] h0, hls]
  rfl

/-! ## Characterising `decimated_stream` -/

theorem optList_getD (l : List Rat) : (optList l).getD [] = l := by
  unfold optList
  split
  · simp [*]
  · rfl

theorem streamVals_cons (name : String) (f : FrameRow) (fs : List FrameRow) :
    streamVals name (f :: fs) = rowVals name f.signals ++ streamVals name fs := rfl

theorem stream_filter_count (dbc_map : Nat → Option DBC) :
    ∀ objs : List ObjectTypes,
      (objs.filter isCm86).length
        = (objs.filterMap (fun o => frame_from_obj o dbc_map)).length := by
  intro objs
  induction objs with
  | nil => rfl
  | cons o rest ih =>
    cases o <;> simp [isCm86, frame_from_obj, ih]

theorem stream_fold_skip (dbc_map : Nat → Option DBC) (step : Nat) :
    ∀ (objs : List ObjectTypes)
      (st : List Rat × List (String × List Rat) × Nat),
      (objs.foldl (fun st obj =>
        match frame_from_obj obj dbc_map with
        | some frame => streamStep step st frame
        | none => st) st)
      = ((objs.filterMap (fun o => frame_from_obj o dbc_map)).foldl
          (streamStep step) st) := by
  intro objs
  induction objs with
  | nil => intro st; rfl
  | cons o rest ih =>
    intro st
    rw [List.foldl_cons, List.filterMap_cons]
    cases ho : frame_from_obj o dbc_map with
    | some f =>
      simp only [ho]
      rw [ih, List.foldl_cons]
    | none =>
      simp only [ho]
      rw [ih]

theorem stream_fold_time (step : Nat) :
    ∀ (fr : List FrameRow) (t0 : List Rat)
      (m0 : List (String × List Rat)) (c0 : Nat),
      (fr.foldl (streamStep step) (t0, m0, c0)).1
        = t0 ++ ((List.enumFrom c0 fr).filter
            (fun p => p.1 % step == 0)).map (fun p => p.2.timestamp) := by
  intro fr
  induction fr with
  | nil => intro t0 m0 c0; simp
  | cons f rest ih =>
    intro t0 m0 c0
    rw [List.foldl_cons, List.enumFrom_cons, List.filter_cons]
    by_cases hp : (c0 % step == 0) = true
    · simp only [streamStep, if_pos hp]
      rw [ih]
      simp
    · simp only [streamStep, if_neg hp]
      rw [ih]

theorem lookup_framePush (name : String) :
    ∀ (rows : List SignalRow) (m0 : List (String × List Rat)) (l0 : List Rat),
      m0.lookup name = optList l0 →
      ((rows.foldl (fun m s => pushEntry m s.signal s.value) m0).lookup name)
        = optList (l0 ++ rowVals name rows) := by
  intro rows
  induction rows with
  | nil =>
    intro m0 l0 h0
    simpa [rowVals] using h0
  | cons r rest ih =>
    intro m0 l0 h0
    rw [List.foldl_cons]
    by_cases hr : r.signal = name
    · have h1 : (pushEntry m0 r.signal r.value).lookup name
          = optList (l0 ++ [r.value]) := by
        rw [hr, lookup_pushEntry_self, h0, optList_getD]
        unfold optList
        rw [if_neg (by simp)]
      rw [ih _ _ h1]
      have h2 : rowVals name (r :: rest) = r.value :: rowVals name rest := by
        unfold rowVals
        rw [List.filter_cons, if_pos (by simp [hr]), List.map_cons]
      rw [h2]
      congr 1
      simp [List.append_assoc]
    · have h1 : (pushEntry m0 r.signal r.value).lookup name
          = optList l0 := by
        rw [lookup_pushEntry_ne m0 r.value (fun hn => hr hn.symm)]
        exact h0
      rw [ih _ _ h1]
      have h2 : rowVals name (r :: rest) = rowVals name rest := by
        unfold rowVals
        rw [List.filter_cons, if_neg (by simp [beq_false_of_ne hr])]
      rw [h2]

theorem stream_fold_lookup (step : Nat) (name : String) :
    ∀ (fr : List FrameRow) (t0 : List Rat)
      (m0 : List (String × List Rat)) (c0 : Nat) (l0 : List Rat),
      m0.lookup name = optList l0 →
      ((fr.foldl (streamStep step) (t0, m0, c0)).2.1).lookup name
        = optList (l0 ++ streamVals name
            (((List.enumFrom c0 fr).filter
              (fun p => p.1 % step == 0)).map (fun p => p.2))) := by
  intro fr
  induction fr with
  | nil =>
    intro t0 m0 c0 l0 h0
    simpa [streamVals] using h0
  | cons f rest ih =>
    intro t0 m0 c0 l0 h0
    rw [List.foldl_cons, List.enumFrom_cons, List.filter_cons]
    by_cases hp : (c0 % step == 0) = true
    · simp only [streamStep, if_pos hp]
      have h1 := lookup_framePush name f.signals m0 l0 h0
      rw [ih _ _ _ _ h1, List.map_cons, streamVals_cons]
      congr 1
      simp [List.append_assoc]
    · simp only [streamStep, if_neg hp]
      rw [ih _ _ _ _ h0]

/-- `decimated_stream` with its `let` bindings unfolded onto the
recognized-frame fold. -/
theorem decimated_stream_unfold (objs : List ObjectTypes)
    (dbc_map : Nat → Option DBC) (M : Nat) :
    decimated_stream objs dbc_map M
      = { time := (objs.foldl (fun st obj =>
              match frame_from_obj obj dbc_map with
              | some frame =>
                streamStep (max 1 ((objs.filter isCm86).length / max M 1)) st frame
              | none => st) ([], [], 0)).1,
          signals := (objs.foldl (fun st obj =>
              match frame_from_obj obj dbc_map with
              | some frame =>
                streamStep (max 1 ((objs.filter isCm86).length / max M 1)) st frame
              | none => st) ([], [], 0)).2.1 } := rfl

/-! ## Remaining helper lemmas -/

theorem isHexUpper_hexDigitU (m : Nat) (hm : m < 16) :
    isHexUpper (hexDigitU m) = true := by
  interval_cases m <;> decide

theorem hexDigits_all (fuel : Nat) :
    ∀ n, ((hexDigits fuel n).all isHexUpper) = true := by
  induction fuel with
  | zero => intro n; rfl
  | succ fuel ih =>
    intro n
    unfold hexDigits
    by_cases hn : (n == 0) = true
    · rw [if_pos hn]
      rfl
    · rw [if_neg hn, List.all_append, ih (n / 16)]
      simp [isHexUpper_hexDigitU (n % 16) (Nat.mod_lt _ (by omega))]

theorem hexUpper_all (n : Nat) : ((hexUpper n).data.all isHexUpper) = true := by
  unfold hexUpper
  by_cases hn : (n == 0) = true
  · rw [if_pos hn]
    decide
  · rw [if_neg hn]
    exact hexDigits_all 32 n

theorem lastSig_none {name : String} {rows : List SignalRow}
    (h : ∀ r ∈ rows, r.signal ≠ name) : lastSig name rows = none := by
  rw [lastSig_eq_applyRows]
  exact applyRows_of_no_match h none

theorem take_min_length {α : Type} (l : List α) (n : Nat) :
    l.take (min n l.length) = l.take n := by
  rcases Nat.le_total n l.length with h | h
  · rw [Nat.min_eq_left h]
  · rw [Nat.min_eq_right h, List.take_of_length_le h,
      List.take_of_length_le (Nat.le_refl _)]

theorem snd_mem_of_mem_enumFrom {α : Type} :
    ∀ (l : List α) (n : Nat) (p : Nat × α), p ∈ List.enumFrom n l → p.2 ∈ l := by
  intro l
  induction l with
  | nil => intro n p hp; cases hp
  | cons a t ih =>
    intro n p hp
    rw [List.enumFrom_cons] at hp
    rcases List.mem_cons.mp hp with h | h
    · subst h
      exact List.mem_cons_self _ _
    · exact List.mem_cons_of_mem _ (ih (n + 1) p h)

/-! ## The claims -/

/-- C2 (code evaluation at the failing input): decoding the big-endian
unsigned full-byte signal `start_bit = 7`, `bit_length = 8`, factor 1,
offset 0 on the payload `[0x01]` (byte 0 has unsigned value 1) returns
0.0, not the byte value 1 the claim requires: the code gathers signal
bit `i` from raw bit `start_bit + i` going upward (bits 7..14), not
downward along the standard Motorola layout, so byte 0's low bits are
lost. On `[0x80]` (byte value 128) it returns 1.0 for the same reason. -/
theorem c2_bigendian_full_byte_eval :
    decode_signal_value sigBE78 [1] = some (((0 : Int) : Rat) * 1 + 0)
      ∧ (((0 : Int) : Rat) * 1 + 0 : Rat) = 0
      ∧ decode_signal_value sigBE78 [128] = some (((1 : Int) : Rat) * 1 + 0)
      ∧ (((1 : Int) : Rat) * 1 + 0 : Rat) = 1 := by
  refine ⟨rfl, by simp, rfl, by simp⟩

/-- C3 (code evaluation at the failing input): for the little-endian
unsigned signal `start_bit = 0`, `bit_length = 64`, factor 1, offset 0
— which satisfies the stated invariant — on a payload whose raw 64-bit
little-endian value is 1, the decoder returns 0.0 instead of the
claimed `(raw >> 0)` masked to 64 bits, i.e. 1.0: in a release build
`(1u64 << 64) - 1` masks the shift amount to 0, producing mask 0 (a
debug build panics on the same expression). -/
theorem c3_bitlength64_eval :
    decode_signal_value sigLE64 d64 = some (((0 : Int) : Rat) * 1 + 0)
      ∧ (((0 : Int) : Rat) * 1 + 0 : Rat) = 0
      ∧ rawOf d64 = 1
      ∧ ((rawOf d64) >>> 0) % 2 ^ 64 = 1 := by
  refine ⟨rfl, by simp, by decide, by decide⟩

/-- C4 (counterexample): on the session built from an empty object
stream (zero frames), calling `decimated` with the explicit retain list
`["A"]` yields a signals object in which `"A"` is not present at all —
refuting the claim that every retained signal name gets a present-but-
empty array. -/
theorem c4_counterexample :
    ¬ ((((buildSession [] (fun _ => none)).decimated 1
          (some ["A"])).signals).lookup "A" = some []) := by
  decide

/-- C4 (amended): on a session with zero frames, `stats()` returns
exactly `(0, 0.0, 0.0, 0)` and `decimated()` returns an empty time axis
together with an *empty* signals map — so under the default retain-all
retention (the registry of a zero-frame session being empty) every
retained name vacuously has a present-but-empty array, while names of
an explicit retain list are absent from the map rather than present
with empty arrays; neither operation fails. -/
theorem c4_empty_session_queries (objs : List ObjectTypes)
    (dbc_map : Nat → Option DBC) (M : Nat) (keep : Option (List String))
    (h : (buildSession objs dbc_map).frames = []) :
    (buildSession objs dbc_map).stats = (0, 0, 0, 0)
      ∧ (buildSession objs dbc_map).decimated M keep
        = { time := [], signals := [] } := by
  have hnames := buildSession_names_nil h
  refine ⟨?_, ?_⟩
  · unfold BlfSession.stats
    rw [h, hnames]
    rfl
  · unfold BlfSession.decimated
    rw [h]
    rfl

/-- C4 witness: the amended statement at the empty object stream with
budget 1 and the default retention. -/
theorem c4_empty_session_queries_witness :
    (buildSession [] (fun _ => none)).stats = (0, 0, 0, 0)
      ∧ (buildSession [] (fun _ => none)).decimated 1 none
        = { time := [], signals := [] } :=
  c4_empty_session_queries [] (fun _ => none) 1 none rfl

/-- C6: for a session with `N ≥ 1` frames and a budget `M ≥ 1`,
`decimated` samples exactly the frames whose zero-based index is a
multiple of the stride `max 1 (N / M)` (the time axis is their
timestamps in order), and therefore emits exactly
`⌈N / stride⌉ = (N + stride - 1) / stride` samples. -/
theorem c6_stride_and_sample_count (s : BlfSession) (M : Nat)
    (keep : Option (List String)) (hN : 1 ≤ s.frames.length) (hM : 1 ≤ M) :
    (s.decimated M keep).time
      = (s.frames.enum.filter
          (fun p => p.1 % (max 1 (s.frames.length / M)) == 0)).map
            (fun p => p.2.timestamp)
      ∧ (s.decimated M keep).time.length
        = (s.frames.length + (max 1 (s.frames.length / M)) - 1)
            / (max 1 (s.frames.length / M)) :=
  ⟨decimated_time_char s M keep (by omega),
   decimated_time_len s M keep (by omega)⟩

/-- C6 witness: the three-frame session with budget 2 (stride 1, three
samples). -/
theorem c6_stride_and_sample_count_witness :
    (sess3.decimated 2 none).time
      = (sess3.frames.enum.filter
          (fun p => p.1 % (max 1 (sess3.frames.length / 2)) == 0)).map
            (fun p => p.2.timestamp)
      ∧ (sess3.decimated 2 none).time.length
        = (sess3.frames.length + (max 1 (sess3.frames.length / 2)) - 1)
            / (max 1 (sess3.frames.length / 2)) :=
  c6_stride_and_sample_count sess3 2 none (by decide) (by decide)

/-- C10 (counterexample): in a non-empty session with budget 1, a
retain list containing the never-observed name `"X"` twice makes the
output array for `"X"` twice as long as the time axis (each sample
pushes once per occurrence), refuting the claim as stated for every
retained-signal list. -/
theorem c10_counterexample :
    ((((BlfSession.mk [fr0] []).decimated 1
          (some ["X", "X"])).signals).lookup "X").map List.length = some 2
      ∧ ((BlfSession.mk [fr0] []).decimated 1 (some ["X", "X"])).time.length
          = 1 := by
  decide

/-- C10 (amended): for every non-empty session and budget
`max_points ≥ 1`, if the retained-signal list contains *exactly one
occurrence* of a name (in particular any duplicate-free list containing
it once) that is never observed in any frame, `decimated` does not
fail: the output contains that name as a key bound to an array of the
same length as the time axis with every entry missing. -/
theorem c10_unknown_name_missing_column (s : BlfSession) (M : Nat)
    (keys : List String) (name : String)
    (hM : 1 ≤ M) (hne : s.frames ≠ [])
    (hcount : keys.count name = 1)
    (hnever : ∀ f ∈ s.frames, ∀ r ∈ f.signals, r.signal ≠ name) :
    ((s.decimated M (some keys)).signals).lookup name
      = some (List.replicate (s.decimated M (some keys)).time.length none) := by
  have hN : s.frames.length ≠ 0 := fun h0 => hne (List.length_eq_zero.mp h0)
  rw [decimated_lookup_char s M keys name hcount hN]
  rw [decimated_time_char s M (some keys) hN, List.length_map]
  congr 1
  rw [show List.enum s.frames = List.enumFrom 0 s.frames from rfl]
  exact locfOut_all_none name (max 1 (s.frames.length / M))
    (List.enumFrom 0 s.frames)
    (fun p hp => hnever p.2 (snd_mem_of_mem_enumFrom s.frames 0 p hp))

/-- C10 witness: the three-frame session, budget 1, retain list
`["Z"]` with `Z` never observed. -/
theorem c10_unknown_name_missing_column_witness :
    ((sess3.decimated 1 (some ["Z"])).signals).lookup "Z"
      = some (List.replicate (sess3.decimated 1 (some ["Z"])).time.length none) :=
  c10_unknown_name_missing_column sess3 1 ["Z"] "Z" (by decide) (by decide)
    (by decide) (by decide)

/-- C5: with budget `max_points ≥ 1` and a duplicate-free retain list,
a retained signal that is observed (decoded) only at frame index `k` —
with `v` the value the frame's rows leave in the most-recent-value
table — reads as missing at every sampled index whose frame index is
below `k` and as the constant `v` at every sampled index whose frame
index is `k` or later (the table is updated from a frame's own signals
before the stride test, so a sample at index `k` itself already reads
`v`); the array is aligned index-for-index with the time axis. -/
theorem c5_locf_single_observation (s : BlfSession) (M : Nat)
    (keys : List String) (name : String) (v : Rat) (k : Nat)
    (hM : 1 ≤ M) (hnd : keys.Nodup) (hmem : name ∈ keys)
    (hk : k < s.frames.length)
    (hobs : applyRows name none (s.frames.get ⟨k, hk⟩).signals = some v)
    (hno : ∀ i (hi : i < s.frames.length), i ≠ k →
      ∀ r ∈ (s.frames.get ⟨i, hi⟩).signals, r.signal ≠ name) :
    ((s.decimated M (some keys)).signals).lookup name
      = some (((List.range s.frames.length).filter
          (fun i => i % (max 1 (s.frames.length / M)) == 0)).map
            (fun i => if i < k then none else some v))
      ∧ (s.decimated M (some keys)).time.length
        = ((List.range s.frames.length).filter
            (fun i => i % (max 1 (s.frames.length / M)) == 0)).length := by
  have hN : s.frames.length ≠ 0 := by omega
  have hc : keys.count name = 1 := List.count_eq_one_of_mem hnd hmem
  constructor
  · rw [decimated_lookup_char s M keys name hc hN]
    congr 1
    rw [show List.enum s.frames = List.enumFrom 0 s.frames from rfl]
    rw [locfOut_enumFrom_single name (max 1 (s.frames.length / M)) k v
      s.frames 0 none (by rw [if_neg (by omega)])
      (fun j hj hne => hno j hj (by omega))
      (fun j hj he => by
        have hjk : j = k := by omega
        subst hjk
        exact hobs)]
    rw [show List.range' 0 s.frames.length = List.range s.frames.length from
      (List.range_eq_range' _).symm]
  · rw [decimated_time_len s M (some keys) hN]
    exact (length_filter_mod _ (by omega) s.frames.length).symm

/-- C5 witness: in the three-frame session the signal `A` is observed
only at frame index 1 with value 7; with budget 3 (stride 1) the
output array for `A` is `[missing, 7, 7]` along the three samples. -/
theorem c5_locf_single_observation_witness :
    ((sess3.decimated 3 (some ["A"])).signals).lookup "A"
      = some (((List.range sess3.frames.length).filter
          (fun i => i % (max 1 (sess3.frames.length / 3)) == 0)).map
            (fun i => if i < 1 then none else some 7))
      ∧ (sess3.decimated 3 (some ["A"])).time.length
        = ((List.range sess3.frames.length).filter
            (fun i => i % (max 1 (sess3.frames.length / 3)) == 0)).length :=
  c5_locf_single_observation sess3 3 ["A"] "A" 7 1 (by decide) (by decide)
    (by decide) (by decide) (by decide)
    (by decide)

/-- C7: for every session and selected-signal list, the CSV header has
exactly `8 + k` columns; the data records are exactly one `csvRow` per
frame; every `csvRow` (hence every data row) has the same `8 + k`
column count; every row's ID cell is `"0x"` followed only by uppercase
hex digits; and a selected name matching no decoded signal of a frame
yields an empty cell at that name's column rather than an error. -/
theorem c7_csv_shape (s : BlfSession) (sel : List String) :
    (export_csv s (some sel)).head? = some (csvHeader (some sel))
      ∧ (csvHeader (some sel)).length = 8 + sel.length
      ∧ (export_csv s (some sel)).tail = s.frames.map (csvRow (some sel))
      ∧ (∀ f : FrameRow, (csvRow (some sel) f).length = 8 + sel.length)
      ∧ (∀ f : FrameRow,
          (csvRow (some sel) f)[2]? = some ("0x" ++ hexUpper f.id))
      ∧ (∀ f : FrameRow, ((hexUpper f.id).data.all isHexUpper) = true)
      ∧ (∀ (f : FrameRow) (j : Nat) (hj : j < sel.length),
          (∀ r ∈ f.signals, r.signal ≠ sel.get ⟨j, hj⟩) →
          (csvRow (some sel) f)[8 + j]? = some "") := by
  refine ⟨rfl, by simp [csvHeader]; omega, rfl,
    fun f => by simp [csvRow]; omega, ?_,
    fun f => hexUpper_all f.id, ?_⟩
  · intro f
    simp only [csvRow]
    rw [List.getElem?_append, if_pos (by simp)]
    rfl
  · intro f j hj hmiss
    simp only [csvRow]
    rw [List.getElem?_append_right (by simp)]
    have h8 : 8 + j - ([fmtTime f.timestamp, f.channel, "0x" ++ hexUpper f.id,
        f.name, f.event_type, f.dir, toString f.dlc, dataHex f.data]).length = j := by
      simp
    rw [h8, List.getElem?_map, List.getElem?_eq_getElem hj]
    have hls : lastSig sel[j] f.signals = none := lastSig_none (by
      simpa using hmiss)
    simp [hls]

/-- C7 witness: the one-frame session (`id = 26`, printing as `0x1A`)
with the selected name `"Z"` unknown to the frame: the header has 9
columns, the frame's row 9 cells, its ID cell is `"0x1A"`, and the
`"Z"` cell, whose no-match hypothesis is discharged concretely, is
empty. -/
theorem c7_csv_shape_witness :
    (export_csv sessW (some ["Z"])).head? = some (csvHeader (some ["Z"]))
      ∧ (csvHeader (some ["Z"])).length = 8 + ["Z"].length
      ∧ (export_csv sessW (some ["Z"])).tail
          = sessW.frames.map (csvRow (some ["Z"]))
      ∧ (csvRow (some ["Z"]) (sessW.frames.get ⟨0, by decide⟩)).length
          = 8 + ["Z"].length
      ∧ (csvRow (some ["Z"]) (sessW.frames.get ⟨0, by decide⟩))[2]?
          = some ("0x" ++ hexUpper (sessW.frames.get ⟨0, by decide⟩).id)
      ∧ ((hexUpper (sessW.frames.get ⟨0, by decide⟩).id).data.all isHexUpper)
          = true
      ∧ (csvRow (some ["Z"]) (sessW.frames.get ⟨0, by decide⟩))[8 + 0]?
          = some "" := by
  obtain ⟨h1, h2, h3, h4, h5, h6, h7⟩ := c7_csv_shape sessW ["Z"]
  exact ⟨h1, h2, h3, h4 _, h5 _, h6 _, h7 _ 0 (by decide) (by decide)⟩

/-- C8: a recognized data-frame object always yields a frame record
carrying the timestamp, channel tag, id, data-length code and raw
payload; with no matching message (no table for the channel, or no id
match) the record has an empty name and empty signal list; with a
match, the record's signals are exactly the per-signal decodes, and a
signal decodes to a value exactly when its bit span lies in the 64-bit
window — an out-of-window signal is silently omitted while the frame
and the other signals proceed. -/
theorem c8_frame_builder_total (cf : CanMessage86)
    (dbc_map : Nat → Option DBC) :
    frame_from_obj (ObjectTypes.canMessage86 cf) dbc_map
        = some (frameOfCm86 cf dbc_map)
      ∧ (frameOfCm86 cf dbc_map).timestamp
          = (cf.timestamp_ns : Rat) / (10 ^ 9 : Rat)
      ∧ (frameOfCm86 cf dbc_map).channel = "CAN" ++ toString cf.channel
      ∧ (frameOfCm86 cf dbc_map).id = cf.id
      ∧ (frameOfCm86 cf dbc_map).dlc = cf.dlc
      ∧ (frameOfCm86 cf dbc_map).data = cf.data
      ∧ (dbc_map (cf.channel % 256) = none →
          (frameOfCm86 cf dbc_map).name = ""
            ∧ (frameOfCm86 cf dbc_map).signals = [])
      ∧ (∀ dbc, dbc_map (cf.channel % 256) = some dbc →
          (dbc.messages.find? (fun m => m.message_id == cf.id) = none →
            (frameOfCm86 cf dbc_map).name = ""
              ∧ (frameOfCm86 cf dbc_map).signals = [])
          ∧ (∀ msg,
              dbc.messages.find? (fun m => m.message_id == cf.id) = some msg →
              (frameOfCm86 cf dbc_map).name = msg.message_name
                ∧ (frameOfCm86 cf dbc_map).signals
                    = msg.signals.filterMap (fun sig =>
                        (decode_signal_value sig cf.data).map (fun val =>
                          ⟨"CAN" ++ toString cf.channel ++ "." ++ sig.name,
                            val, sig.unit⟩))))
      ∧ (∀ sig data, (decode_signal_value sig data).isSome = spanOk sig) := by
  refine ⟨rfl, rfl, rfl, rfl, rfl, rfl, ?_, ?_, ?_⟩
  · intro h
    constructor <;> simp [frameOfCm86, h]
  · intro dbc hd
    constructor
    · intro hfind
      constructor <;> simp [frameOfCm86, hd, hfind]
    · intro msg hfind
      constructor <;> simp [frameOfCm86, hd, hfind]
  · intro sig data
    simp only [decode_signal_value, spanOk]
    by_cases hg : (sig.signal_size == 0 || sig.signal_size > 64
        || sig.start_bit + sig.signal_size > 64 : Bool) = true
    · rw [if_pos hg, hg]
      rfl
    · rw [if_neg hg]
      have hfalse : (sig.signal_size == 0 || sig.signal_size > 64
          || sig.start_bit + sig.signal_size > 64 : Bool) = false := by
        simpa using hg
      rw [hfalse]
      rfl

/-- C8 witness: the frame `cmW` matches `msgW` on channel 1; its name
is `"M"`, the out-of-window signal `B` is omitted, the in-window signal
`A` survives, and the span test agrees with decodability on both. -/
theorem c8_frame_builder_total_witness :
    (frameOfCm86 cmW dbcMapW).name = "M"
      ∧ (frameOfCm86 cmW dbcMapW).signals.length = 1
      ∧ spanOk sigIn = true ∧ spanOk sigOut = false
      ∧ (decode_signal_value sigIn cmW.data).isSome = true
      ∧ (decode_signal_value sigOut cmW.data).isSome = false := by
  obtain ⟨-, -, -, -, -, -, -, hmatch, hspan⟩ :=
    c8_frame_builder_total cmW dbcMapW
  have hm := (hmatch (DBC.mk [msgW]) (by decide)).2 msgW (by decide)
  refine ⟨hm.1, ?_, by decide, by decide, ?_, ?_⟩
  · rw [hm.2]
    decide
  · rw [hspan sigIn cmW.data]
    decide
  · rw [hspan sigOut cmW.data]
    decide

/-- C9: `load_preview_smart` decodes the whole provided buffer when the
declared size is at most 20 MiB and otherwise only
`min(⌊0.05 · declared⌋, 100 MiB)` bytes from the start (clamped to the
buffer's length), and always returns at most the first 50 frames of
the session built from that slice. -/
theorem c9_smart_preview_policy (reader : List Nat → List ObjectTypes)
    (blf_bytes : List Nat) (dbc_map : Nat → Option DBC) (file_size : Nat) :
    load_preview_smart reader blf_bytes dbc_map file_size
        = ((buildSession (reader
            (if file_size ≤ 20 * 1024 * 1024 then blf_bytes
             else blf_bytes.take (min (min (file_size / 20)
               (100 * 1024 * 1024)) blf_bytes.length))) dbc_map).frames).take 50
      ∧ (load_preview_smart reader blf_bytes dbc_map file_size).length ≤ 50 := by
  have hmain : load_preview_smart reader blf_bytes dbc_map file_size
      = ((buildSession (reader
          (if file_size ≤ 20 * 1024 * 1024 then blf_bytes
           else blf_bytes.take (min (min (file_size / 20)
             (100 * 1024 * 1024)) blf_bytes.length))) dbc_map).frames).take 50 := by
    simp only [load_preview_smart]
    by_cases h : file_size ≤ 20 * 1024 * 1024
    · rw [if_pos h, if_pos h, Nat.min_self, List.take_length]
      exact take_min_length _ 50
    · rw [if_neg h, if_neg h]
      exact take_min_length _ 50
  refine ⟨hmain, ?_⟩
  rw [hmain, List.length_take]
  omega

/-- C1 (counterexample): on the two-frame stream `objsAB` (the first
frame observes `CAN1.X`, the second observes nothing) with budget 2,
both paths sample both frames, but `decimated_stream` produces an array
of length 1 for `CAN1.X` against a time axis of length 2 — no value is
carried forward at the second sample — while the Session-based
`decimated` with all signals retained produces the aligned length-2
array; the two results are not equal and the stream's arrays are not
index-aligned with its time axis. -/
theorem c1_counterexample :
    (decimated_stream objsAB dbcMapX 2).time.length = 2
      ∧ ((decimated_stream objsAB dbcMapX 2).signals.lookup "CAN1.X").map
          List.length = some 1
      ∧ ((((buildSession objsAB dbcMapX).decimated 2 none).signals).lookup
          "CAN1.X").map List.length = some 2
      ∧ (((buildSession objsAB dbcMapX).decimated 2 none).time).length = 2 := by
  decide

/-- C1 (amended): for every object stream, channel table and budget
`max_points ≥ 1`, `decimated_stream` uses the same stride and samples
the same frames as building a Session from the stream and calling
`decimated` with all signals retained — its time axis equals the
Session path's time axis — but instead of last-observed-value
carry-forward it appends, per signal, only the values actually decoded
in the sampled frames: a signal's array holds exactly those observed
values in order (the key being absent when there are none), with no
missing entries, so it is generally shorter than the time axis. -/
theorem c1_stream_no_carry_forward (objs : List ObjectTypes)
    (dbc_map : Nat → Option DBC) (M : Nat) (name : String) (hM : 1 ≤ M) :
    (decimated_stream objs dbc_map M).time
        = ((buildSession objs dbc_map).decimated M none).time
      ∧ (decimated_stream objs dbc_map M).signals.lookup name
        = optList (streamVals name
            (sampledFrames (buildSession objs dbc_map).frames
              (max 1 ((buildSession objs dbc_map).frames.length / M)))) := by
  have hfr : (buildSession objs dbc_map).frames
      = objs.filterMap (fun o => frame_from_obj o dbc_map) :=
    buildSession_frames objs dbc_map
  have hstep : max 1 ((objs.filter isCm86).length / max M 1)
      = max 1 ((buildSession objs dbc_map).frames.length / M) := by
    rw [stream_filter_count dbc_map objs, ← hfr, Nat.max_eq_left hM]
  constructor
  · rw [decimated_stream_unfold, stream_fold_skip]
    rw [show ∀ (x : List Rat) (y : List (String × List Rat)),
        (StreamOut.mk x y).time = x from fun _ _ => rfl]
    rw [stream_fold_time, hstep, ← hfr]
    by_cases h0 : (buildSession objs dbc_map).frames.length = 0
    · rw [List.length_eq_zero.mp h0]
      unfold BlfSession.decimated
      rw [if_pos (by simp [h0])]
      rfl
    · rw [decimated_time_char _ M none h0]
      rw [show List.enum (buildSession objs dbc_map).frames
          = List.enumFrom 0 (buildSession objs dbc_map).frames from rfl]
      simp
  · rw [decimated_stream_unfold, stream_fold_skip]
    rw [show ∀ (x : List Rat) (y : List (String × List Rat)),
        (StreamOut.mk x y).signals = y from fun _ _ => rfl]
    rw [stream_fold_lookup _ name _ [] [] 0 [] rfl, hstep, ← hfr]
    unfold sampledFrames
    rw [show List.enum (buildSession objs dbc_map).frames
        = List.enumFrom 0 (buildSession objs dbc_map).frames from rfl]
    simp

/-- C1 amended-claim witness: the two-frame stream `objsAB` with budget
1 and the signal `CAN1.X`. -/
theorem c1_stream_no_carry_forward_witness :
    (decimated_stream objsAB dbcMapX 1).time
        = ((buildSession objsAB dbcMapX).decimated 1 none).time
      ∧ (decimated_stream objsAB dbcMapX 1).signals.lookup "CAN1.X"
        = optList (streamVals "CAN1.X"
            (sampledFrames (buildSession objsAB dbcMapX).frames
              (max 1 ((buildSession objsAB dbcMapX).frames.length / 1)))) :=
  c1_stream_no_carry_forward objsAB dbcMapX 1 "CAN1.X" (by decide)

end CanBlf
